import Mathlib

/-!
# A shallow embedding of `CalShift` (src/CalShift.ipynb)

The repository defines one training objective, `CalShift`: a symmetric CLIP
contrastive loss plus a Fisher-Information penalty and a confidence-
misalignment penalty over a frozen backbone.  This file embeds the module
over the reals:

* tensors become `Fin`-indexed functions into `ℝ`;
* `F.softmax(·, dim=-1)` becomes `softmax`;
* fallible torch operations (`F.cross_entropy` shape/target checks, tensor
  indexing, dereferencing the `None` prompt learner, `torch.stack` on an
  empty list) return `Except Err`;
* the backbone encoders and the autodiff engine are opaque collaborators:
  the encoders are fields of `Backbone`, and the per-sample gradient that
  `torch.autograd.grad` returns for sample `i` is the oracle field
  `PromptLearner.grad` applied to `i` (the code only concatenates, stacks
  and averages those gradients; that aggregation is embedded exactly).

Python float arithmetic is modelled by exact real arithmetic, so division by
a zero norm in the (unguarded) L2 normalization yields Lean's `x / 0 = 0`
rather than `NaN`/`inf`; what is preserved is the control flow: no error is
raised there.
-/

/-- Errors a `forward` evaluation can raise, by source of failure:
`shapeMismatch` — `F.cross_entropy` input/target batch sizes differ
(torch `ValueError`); `invalidLabel` — a `cross_entropy` target is negative
or `≥` the class count (torch `IndexError: Target t is out of bounds`);
`indexError` — tensor indexing `probs[i, labels[i]]` with an index outside
`[-M, M)`; `noneType` — `self.prompt_learner.parameters()` with
`prompt_learner = None` (`AttributeError`); `emptyStack` — `torch.stack` on
an empty list (`RuntimeError`). -/
inductive Err where
  | shapeMismatch
  | invalidLabel
  | indexError
  | noneType
  | emptyStack
deriving DecidableEq

/-- One backbone parameter tensor: its (flattened) data together with its
`requires_grad` flag. -/
structure Param where
  data : List ℝ
  requires_grad : Bool

/-- The frozen CLIP backbone (`clip_model`): opaque image/text encoders into a
`d`-dimensional embedding space, the learnable scalar `logit_scale`, and its
parameter list (whose `requires_grad` flags `__init__` mutates). -/
structure Backbone (ι τ : Type) (d : ℕ) where
  encode_image : ι → Fin d → ℝ
  encode_text : τ → Fin d → ℝ
  logit_scale : ℝ
  params : List Param

/-- The trainable prompt learner together with the external autodiff engine's
answers: `grad i` is the flattened concatenation of
`torch.autograd.grad(log_prob_i, parameters())` for loop iteration `i` of
`compute_fisher_penalty`.  The engine is an opaque collaborator, so the
gradient vectors are an oracle indexed by the sample position. -/
structure PromptLearner (P : ℕ) where
  grad : ℕ → Fin P → ℝ

/-- The `CalShift` module state after `__init__`: the (frozen) backbone, the
two penalty weights, and the optional prompt learner (`None` as
constructed). -/
structure CalShift (ι τ : Type) (d P : ℕ) where
  clip_model : Backbone ι τ d
  lambda_fim : ℝ
  lambda_cmp : ℝ
  prompt_learner : Option (PromptLearner P)

/-- The five-field result dictionary `forward` returns. -/
structure LossReport (N M : ℕ) where
  loss : ℝ
  clip_loss : ℝ
  fim_penalty : ℝ
  cmp_penalty : ℝ
  logits : Fin N → Fin M → ℝ

/-- `CalShift.__init__`: stores the backbone and weights, sets every backbone
parameter's `requires_grad` to `False`, and leaves `prompt_learner = None`. -/
def CalShift.init {ι τ : Type} {d P : ℕ} (clip_model : Backbone ι τ d)
    (lambda_fim lambda_cmp : ℝ) : CalShift ι τ d P :=
  { clip_model := { clip_model with
      params := clip_model.params.map (fun p => { p with requires_grad := false }) },
    lambda_fim := lambda_fim,
    lambda_cmp := lambda_cmp,
    prompt_learner := none }

/-- `F.softmax(row, dim=-1)` at position `j`. -/
noncomputable def softmax {C : ℕ} (row : Fin C → ℝ) (j : Fin C) : ℝ :=
  Real.exp (row j) / ∑ k, Real.exp (row k)

/-- Torch basic indexing `v[t]` with an integer index: indices in `[0, M)`
read directly, indices in `[-M, 0)` wrap Python-style, anything else raises
`IndexError`.  On the guarded range both cases equal `v[t % M]` with the
Euclidean `%`. -/
noncomputable def tindex {M : ℕ} (v : Fin M → ℝ) (t : ℤ) : Except Err ℝ :=
  if h : -(M : ℤ) ≤ t ∧ t < (M : ℤ) then
    Except.ok (v ⟨(t % (M : ℤ)).toNat, by
      have h1 := Int.emod_nonneg t (by omega : (M : ℤ) ≠ 0)
      have h2 := Int.emod_lt_of_pos t (by omega : (0 : ℤ) < (M : ℤ))
      omega⟩)
  else Except.error Err.indexError

/-- `F.cross_entropy(input, target)` (mean reduction) once the input/target
batch sizes agree: checks every target is in `[0, C)` (else torch raises
`IndexError`, modelled `Err.invalidLabel`), then returns the mean over the
batch of the negative log softmax probability of the target class. -/
noncomputable def cross_entropy_sized {B C : ℕ} (input : Fin B → Fin C → ℝ)
    (target : Fin B → ℤ) : Except Err ℝ :=
  if hT : ∀ i, 0 ≤ target i ∧ target i < (C : ℤ) then
    Except.ok ((∑ i, -Real.log (softmax (input i)
      ⟨(target i).toNat, by have h := hT i; omega⟩)) / (B : ℝ))
  else Except.error Err.invalidLabel

/-- `F.cross_entropy(input, target)`: torch first checks that the input batch
size matches the target length (`ValueError`, modelled `Err.shapeMismatch`),
then proceeds as `cross_entropy_sized`. -/
noncomputable def cross_entropy {Bi C Bt : ℕ} (input : Fin Bi → Fin C → ℝ)
    (target : Fin Bt → ℤ) : Except Err ℝ :=
  if hB : Bt = Bi then
    cross_entropy_sized input (fun i => target (Fin.cast hB.symm i))
  else Except.error Err.shapeMismatch

lemma cross_entropy_eq_sized {B C : ℕ} (input : Fin B → Fin C → ℝ)
    (target : Fin B → ℤ) :
    cross_entropy input target = cross_entropy_sized input target := by
  unfold cross_entropy
  rw [dif_pos rfl]
  rfl

lemma cross_entropy_shape {Bi C Bt : ℕ} (input : Fin Bi → Fin C → ℝ)
    (target : Fin Bt → ℤ) (h : Bt ≠ Bi) :
    cross_entropy input target = Except.error Err.shapeMismatch := by
  simp only [cross_entropy]
  exact dif_neg h

lemma cross_entropy_sized_invalid {B C : ℕ} (input : Fin B → Fin C → ℝ)
    (target : Fin B → ℤ) (h : ¬ ∀ i, 0 ≤ target i ∧ target i < (C : ℤ)) :
    cross_entropy_sized input target = Except.error Err.invalidLabel := by
  simp only [cross_entropy_sized]
  exact dif_neg h

lemma cross_entropy_sized_ok_of_valid {B C : ℕ} (input : Fin B → Fin C → ℝ)
    (target : Fin B → ℤ) (h : ∀ i, 0 ≤ target i ∧ target i < (C : ℤ)) :
    ∃ a, cross_entropy_sized input target = Except.ok a := by
  simp only [cross_entropy_sized]
  exact ⟨_, dif_pos h⟩

lemma tindex_intLabels {M : ℕ} (v : Fin M → ℝ) (t : Fin M) :
    tindex v ((t : ℕ) : ℤ) = Except.ok (v t) := by
  have ht := t.isLt
  have h : -(M : ℤ) ≤ ((t : ℕ) : ℤ) ∧ ((t : ℕ) : ℤ) < (M : ℤ) := by omega
  simp only [tindex]
  rw [dif_pos h]
  congr 1
  apply congrArg v
  apply Fin.ext
  show (((t : ℕ) : ℤ) % (M : ℤ)).toNat = (t : ℕ)
  rw [Int.emod_eq_of_lt (by omega) (by omega)]
  omega

lemma tindex_ok_of_valid {M : ℕ} (v : Fin M → ℝ) (t : ℤ)
    (h : 0 ≤ t ∧ t < (M : ℤ)) : ∃ w, tindex v t = Except.ok w := by
  simp only [tindex]
  exact ⟨_, dif_pos (by omega)⟩

lemma cross_entropy_sized_intLabels {N M : ℕ} (input : Fin N → Fin M → ℝ)
    (lab : Fin N → Fin M) :
    cross_entropy_sized input (fun i => ((lab i : ℕ) : ℤ)) =
      Except.ok ((∑ i, -Real.log (softmax (input i) (lab i))) / (N : ℝ)) := by
  have hv : ∀ i : Fin N, 0 ≤ ((lab i : ℕ) : ℤ) ∧ ((lab i : ℕ) : ℤ) < (M : ℤ) := by
    intro i
    have := (lab i).isLt
    omega
  simp only [cross_entropy_sized]
  rw [dif_pos hv]
  congr 1

/-- The per-sample body of the `compute_cmp` loop: `true_prob` is the softmax
probability of the labeled class, `excess_prob` the sum of the probabilities
of the classes whose probability strictly exceeds it and whose index differs
from the label; the sample contributes `true_prob / excess_prob` when
`excess_prob > 0` and `0` otherwise. -/
noncomputable def cmpTerm {M : ℕ} (prow : Fin M → ℝ) (t : Fin M) : ℝ :=
  let true_prob := prow t
  let excess_prob := ∑ j ∈ Finset.univ.filter
      (fun j => true_prob < prow j ∧ ((j : ℕ) : ℤ) ≠ ((t : ℕ) : ℤ)), prow j
  if 0 < excess_prob then true_prob / excess_prob else 0

/-- The `for i in range(batch_size)` loop of `compute_cmp`, over the listed
sample indices: reads `true_prob = probs[i, labels[i]]` (torch indexing, so an
out-of-range label raises `IndexError`), masks the classes with
`(probs[i] > true_prob) & (arange(num_classes) != labels[i])`, sums their
probabilities into `excess_prob`, and accumulates `true_prob / excess_prob`
when `excess_prob > 0`. -/
noncomputable def cmpLoop {N M : ℕ} (probs : Fin N → Fin M → ℝ) (labels : Fin N → ℤ) :
    List (Fin N) → Except Err ℝ
  | [] => Except.ok 0
  | i :: rest =>
    match tindex (probs i) (labels i) with
    | Except.error e => Except.error e
    | Except.ok true_prob =>
      match cmpLoop probs labels rest with
      | Except.error e => Except.error e
      | Except.ok s =>
        Except.ok ((if 0 < ∑ j ∈ Finset.univ.filter
            (fun j => true_prob < probs i j ∧ ((j : ℕ) : ℤ) ≠ labels i), probs i j
          then true_prob / ∑ j ∈ Finset.univ.filter
            (fun j => true_prob < probs i j ∧ ((j : ℕ) : ℤ) ≠ labels i), probs i j
          else 0) + s)

/-- `CalShift.compute_cmp(logits, labels)`: softmax the logits row-wise, run
the per-sample loop, and divide the accumulated sum by the batch size. -/
noncomputable def compute_cmp {N M : ℕ} (logits : Fin N → Fin M → ℝ)
    (labels : Fin N → ℤ) : Except Err ℝ :=
  match cmpLoop (fun i => softmax (logits i)) labels (List.finRange N) with
  | Except.error e => Except.error e
  | Except.ok cmp_loss => Except.ok (cmp_loss / (N : ℝ))

/-- The `for i in range(batch_size)` loop of `compute_fisher_penalty`, over
the listed sample indices: evaluates `log_prob = log(probs[i, labels[i]])`
(torch indexing), then dereferences `self.prompt_learner` —
`AttributeError` when it is `None` — and collects the flattened concatenated
gradient the autodiff engine returns for this sample. -/
noncomputable def fisherLoop {N M P : ℕ} (pl : Option (PromptLearner P))
    (probs : Fin N → Fin M → ℝ) (labels : Fin N → ℤ) :
    List (Fin N) → Except Err (List (Fin P → ℝ))
  | [] => Except.ok []
  | i :: rest =>
    match tindex (probs i) (labels i) with
    | Except.error e => Except.error e
    | Except.ok _ =>
      match pl with
      | none => Except.error Err.noneType
      | some q =>
        match fisherLoop (some q) probs labels rest with
        | Except.error e => Except.error e
        | Except.ok gs => Except.ok (q.grad i.val :: gs)

/-- `CalShift.compute_fisher_penalty(logits, labels)`: softmax the logits,
collect the per-sample gradients, `torch.stack` them (which raises on an
empty batch) and return the mean of their squared Euclidean norms. -/
noncomputable def compute_fisher_penalty {N M P : ℕ} (pl : Option (PromptLearner P))
    (logits : Fin N → Fin M → ℝ) (labels : Fin N → ℤ) : Except Err ℝ :=
  match fisherLoop pl (fun i => softmax (logits i)) labels (List.finRange N) with
  | Except.error e => Except.error e
  | Except.ok grad_log_probs =>
    if grad_log_probs.isEmpty then Except.error Err.emptyStack
    else Except.ok
      (((grad_log_probs.map (fun g => ∑ p, g p ^ 2)).sum) / (grad_log_probs.length : ℝ))

lemma cmpLoop_intLabels {N M : ℕ} (probs : Fin N → Fin M → ℝ) (lab : Fin N → Fin M)
    (l : List (Fin N)) :
    cmpLoop probs (fun i => ((lab i : ℕ) : ℤ)) l =
      Except.ok ((l.map (fun i => cmpTerm (probs i) (lab i))).sum) := by
  induction l with
  | nil => simp [cmpLoop]
  | cons i rest ih =>
    simp only [cmpLoop, tindex_intLabels, ih, List.map_cons, List.sum_cons]
    rfl

lemma compute_cmp_intLabels {N M : ℕ} (logits : Fin N → Fin M → ℝ)
    (lab : Fin N → Fin M) :
    compute_cmp logits (fun i => ((lab i : ℕ) : ℤ)) =
      Except.ok ((∑ i, cmpTerm (softmax (logits i)) (lab i)) / (N : ℝ)) := by
  simp only [compute_cmp, cmpLoop_intLabels]
  congr 2

lemma fisherLoop_some {N M P : ℕ} (q : PromptLearner P) (probs : Fin N → Fin M → ℝ)
    (lab : Fin N → Fin M) (l : List (Fin N)) :
    fisherLoop (some q) probs (fun i => ((lab i : ℕ) : ℤ)) l =
      Except.ok (l.map (fun i => q.grad i.val)) := by
  induction l with
  | nil => simp [fisherLoop]
  | cons i rest ih =>
    simp only [fisherLoop, tindex_intLabels, ih, List.map_cons]

lemma compute_fisher_some {M P n : ℕ} (q : PromptLearner P)
    (logits : Fin (n + 1) → Fin M → ℝ) (lab : Fin (n + 1) → Fin M) :
    compute_fisher_penalty (some q) logits (fun i => ((lab i : ℕ) : ℤ)) =
      Except.ok ((∑ i : Fin (n + 1), ∑ p, q.grad i.val p ^ 2) / ((n + 1 : ℕ) : ℝ)) := by
  simp only [compute_fisher_penalty, fisherLoop_some]
  have hcond : ¬ (((List.finRange (n + 1)).map
      (fun i : Fin (n + 1) => q.grad i.val)).isEmpty = true) := by
    simp [List.isEmpty_iff_length_eq_zero]
  rw [if_neg hcond]
  congr 1
  rw [List.map_map, ← Fin.sum_univ_def, List.length_map, List.length_finRange]
  rfl

lemma compute_fisher_none_err {N M P : ℕ} (logits : Fin N → Fin M → ℝ)
    (labels : Fin N → ℤ) :
    ∃ e, @compute_fisher_penalty N M P none logits labels = Except.error e := by
  rcases hL : List.finRange N with _ | ⟨i, rest⟩
  · exact ⟨Err.emptyStack, by simp [compute_fisher_penalty, hL, fisherLoop]⟩
  · rcases ht : tindex (softmax (logits i)) (labels i) with e | w
    · exact ⟨e, by simp [compute_fisher_penalty, hL, fisherLoop, ht]⟩
    · exact ⟨Err.noneType, by simp [compute_fisher_penalty, hL, fisherLoop, ht]⟩

/-- Row-wise L2 normalization `x / x.norm(dim=-1, keepdim=True)`.  The source
has no zero-norm guard: when the norm is zero the division is performed
anyway (exact-real model: `x / 0 = 0`; torch: `NaN` propagation — either
way, no error is raised). -/
noncomputable def l2normalize {d : ℕ} (v : Fin d → ℝ) : Fin d → ℝ :=
  fun k => v k / Real.sqrt (∑ j, v j ^ 2)

/-- The logits matrix of `forward`:
`logits = (image_features @ text_features.T) * clip_model.logit_scale.exp()`
with both feature matrices L2-normalized row-wise. -/
noncomputable def logitsOf {ι τ : Type} {d nI nT : ℕ} (b : Backbone ι τ d)
    (images : Fin nI → ι) (text_tokens : Fin nT → τ) : Fin nI → Fin nT → ℝ :=
  fun i j => (∑ k, l2normalize (b.encode_image (images i)) k *
      l2normalize (b.encode_text (text_tokens j)) k) * Real.exp b.logit_scale

/-- Line 83 of the source:
`clip_loss = (F.cross_entropy(logits, labels) + F.cross_entropy(logits.T, labels)) / 2`
with Python's left-to-right evaluation, so the row-direction call raises
first. -/
noncomputable def clip_loss {N M : ℕ} (logits : Fin N → Fin M → ℝ)
    (labels : Fin N → ℤ) : Except Err ℝ :=
  match cross_entropy logits labels with
  | Except.error e => Except.error e
  | Except.ok a =>
    match cross_entropy (fun j i => logits i j) labels with
    | Except.error e => Except.error e
    | Except.ok b => Except.ok ((a + b) / 2)

/-- `CalShift.forward(images, text_tokens, labels)`: encode and L2-normalize
the features, form the temperature-scaled logits, then compute in order the
symmetric contrastive loss, the Fisher penalty and the confidence-
misalignment penalty, and return the report with
`total_loss = clip_loss + lambda_fim * fim_penalty + lambda_cmp * cmp_penalty`. -/
noncomputable def CalShift.forward {ι τ : Type} {d P nI nT : ℕ} (m : CalShift ι τ d P)
    (images : Fin nI → ι) (text_tokens : Fin nT → τ) (labels : Fin nI → ℤ) :
    Except Err (LossReport nI nT) :=
  match clip_loss (logitsOf m.clip_model images text_tokens) labels with
  | Except.error e => Except.error e
  | Except.ok cl =>
    match compute_fisher_penalty m.prompt_learner
        (logitsOf m.clip_model images text_tokens) labels with
    | Except.error e => Except.error e
    | Except.ok fim =>
      match compute_cmp (logitsOf m.clip_model images text_tokens) labels with
      | Except.error e => Except.error e
      | Except.ok cmp =>
        Except.ok
          { loss := cl + m.lambda_fim * fim + m.lambda_cmp * cmp,
            clip_loss := cl,
            fim_penalty := fim,
            cmp_penalty := cmp,
            logits := logitsOf m.clip_model images text_tokens }

lemma clip_loss_intLabels {N : ℕ} (logits : Fin N → Fin N → ℝ) (lab : Fin N → Fin N) :
    clip_loss logits (fun i => ((lab i : ℕ) : ℤ)) =
      Except.ok (((∑ i, -Real.log (softmax (logits i) (lab i))) / (N : ℝ) +
        (∑ i, -Real.log (softmax (fun j => logits j i) (lab i))) / (N : ℝ)) / 2) := by
  have h1 := (cross_entropy_eq_sized logits (fun i => ((lab i : ℕ) : ℤ))).trans
    (cross_entropy_sized_intLabels logits lab)
  have h2 := (cross_entropy_eq_sized (fun j i => logits i j)
      (fun i => ((lab i : ℕ) : ℤ))).trans
    (cross_entropy_sized_intLabels (fun j i => logits i j) lab)
  simp only [clip_loss, h1, h2]

lemma forward_ok {ι τ : Type} {d P n : ℕ} (b : Backbone ι τ d) (lf lc : ℝ)
    (q : PromptLearner P) (images : Fin (n + 1) → ι) (toks : Fin (n + 1) → τ)
    (lab : Fin (n + 1) → Fin (n + 1)) :
    ∃ cl fim cmp : ℝ,
      CalShift.forward ⟨b, lf, lc, some q⟩ images toks (fun i => ((lab i : ℕ) : ℤ)) =
        Except.ok
          { loss := cl + lf * fim + lc * cmp,
            clip_loss := cl,
            fim_penalty := fim,
            cmp_penalty := cmp,
            logits := logitsOf b images toks } := by
  have hclip := clip_loss_intLabels (logitsOf b images toks) lab
  have hfim := compute_fisher_some q (logitsOf b images toks) lab
  have hcmp := compute_cmp_intLabels (logitsOf b images toks) lab
  exact ⟨_, _, _, by
    simp only [CalShift.forward, hclip, hfim, hcmp]
    rfl⟩

/-- The confidence-misalignment penalty as the spec words it (§4.1 step 6):
per sample, `true_prob` is the softmax probability of the labeled class and
`excess_prob` the sum of the softmax probabilities of the *other* classes
whose probability strictly exceeds `true_prob`; the sample contributes
`true_prob / excess_prob` when `excess_prob > 0` and `0` when it is `0`, and
the penalty is the accumulated sum divided by the batch size.  Stated from
the spec's words as the reference side of the refinement claim C2. -/
noncomputable def cmpPenaltySpec {N M : ℕ} (logits : Fin N → Fin M → ℝ)
    (lab : Fin N → Fin M) : ℝ :=
  (∑ i, (if 0 < ∑ j ∈ Finset.univ.filter (fun j => j ≠ lab i ∧
        softmax (logits i) (lab i) < softmax (logits i) j), softmax (logits i) j
    then softmax (logits i) (lab i) /
      ∑ j ∈ Finset.univ.filter (fun j => j ≠ lab i ∧
        softmax (logits i) (lab i) < softmax (logits i) j), softmax (logits i) j
    else 0)) / (N : ℝ)

lemma softmax_perm {N : ℕ} (row : Fin N → ℝ) (σ : Equiv.Perm (Fin N)) (k : Fin N) :
    softmax (fun j => row (σ j)) k = softmax row (σ k) := by
  unfold softmax
  rw [Equiv.sum_comp σ (fun j => Real.exp (row j))]

/-- C1: for every batch that evaluates, the reported total loss is exactly the
contrastive loss plus `lambda_fim` times the Fisher penalty plus `lambda_cmp`
times the confidence-misalignment penalty, and with both weights zero the
total loss equals the contrastive loss. -/
theorem total_loss_composition {ι τ : Type} {d P n : ℕ} (b : Backbone ι τ d)
    (lf lc : ℝ) (q : PromptLearner P) (images : Fin (n + 1) → ι)
    (toks : Fin (n + 1) → τ) (lab : Fin (n + 1) → Fin (n + 1)) :
    ∃ r : LossReport (n + 1) (n + 1),
      CalShift.forward ⟨b, lf, lc, some q⟩ images toks (fun i => ((lab i : ℕ) : ℤ)) =
        Except.ok r ∧
      r.loss = r.clip_loss + lf * r.fim_penalty + lc * r.cmp_penalty ∧
      (lf = 0 → lc = 0 → r.loss = r.clip_loss) := by
  obtain ⟨cl, fim, cmp, h⟩ := forward_ok b lf lc q images toks lab
  refine ⟨_, h, rfl, ?_⟩
  rintro rfl rfl
  show cl + 0 * fim + 0 * cmp = cl
  ring

/-- C2: `compute_cmp` returns exactly the batch mean of the per-sample terms
the spec describes: `true_prob / excess_prob` when some other class's softmax
probability strictly exceeds the labeled class's, `0` otherwise. -/
theorem compute_cmp_matches_spec {N M : ℕ} (logits : Fin N → Fin M → ℝ)
    (lab : Fin N → Fin M) :
    compute_cmp logits (fun i => ((lab i : ℕ) : ℤ)) =
      Except.ok (cmpPenaltySpec logits lab) := by
  rw [compute_cmp_intLabels]
  congr 1
  simp only [cmpPenaltySpec, cmpTerm]
  congr 1
  apply Finset.sum_congr rfl
  intro i _
  have hf : Finset.univ.filter (fun j => softmax (logits i) (lab i) < softmax (logits i) j ∧
        ((j : ℕ) : ℤ) ≠ ((lab i : ℕ) : ℤ)) =
      Finset.univ.filter (fun j => j ≠ lab i ∧
        softmax (logits i) (lab i) < softmax (logits i) j) := by
    apply Finset.filter_congr
    intro j _
    constructor
    · rintro ⟨h1, h2⟩
      exact ⟨fun he => h2 (by rw [he]), h1⟩
    · rintro ⟨h1, h2⟩
      refine ⟨h2, fun he => h1 (Fin.ext ?_)⟩
      exact_mod_cast he
  rw [hf]

/-- C3: with the state `__init__` builds (`prompt_learner = None`), no forward
call ever returns a report — Fisher computation is invoked unconditionally —
and whenever the contrastive-loss step goes through (matching batch sizes,
in-range labels, nonempty batch) the failure is exactly the `None`
dereference in `compute_fisher_penalty`. -/
theorem forward_always_fails_as_constructed {ι τ : Type} {d P nI nT : ℕ}
    (b : Backbone ι τ d) (lf lc : ℝ) (images : Fin nI → ι) (toks : Fin nT → τ)
    (labels : Fin nI → ℤ) :
    (¬ ∃ r, CalShift.forward (@CalShift.init ι τ d P b lf lc) images toks labels =
        Except.ok r) ∧
    ((∀ i, 0 ≤ labels i ∧ labels i < (nT : ℤ)) → nI = nT → 0 < nI →
      CalShift.forward (@CalShift.init ι τ d P b lf lc) images toks labels =
        Except.error Err.noneType) := by
  have hpl : (@CalShift.init ι τ d P b lf lc).prompt_learner = none := rfl
  constructor
  · rintro ⟨r, hr⟩
    simp only [CalShift.forward, hpl] at hr
    rcases hcl : clip_loss
        (logitsOf (@CalShift.init ι τ d P b lf lc).clip_model images toks) labels
      with e | cl
    · rw [hcl] at hr
      exact Except.noConfusion hr
    · rw [hcl] at hr
      obtain ⟨e, he⟩ := compute_fisher_none_err
        (logitsOf (@CalShift.init ι τ d P b lf lc).clip_model images toks) labels
      rw [he] at hr
      exact Except.noConfusion hr
  · intro hlab hNT hpos
    subst hNT
    obtain ⟨a1, ha1⟩ := cross_entropy_sized_ok_of_valid
      (logitsOf (@CalShift.init ι τ d P b lf lc).clip_model images toks) labels hlab
    obtain ⟨a2, ha2⟩ := cross_entropy_sized_ok_of_valid
      (fun j i => logitsOf (@CalShift.init ι τ d P b lf lc).clip_model images toks i j)
      labels hlab
    have hc1 := (cross_entropy_eq_sized
      (logitsOf (@CalShift.init ι τ d P b lf lc).clip_model images toks) labels).trans ha1
    have hc2 := (cross_entropy_eq_sized
      (fun j i => logitsOf (@CalShift.init ι τ d P b lf lc).clip_model images toks i j)
      labels).trans ha2
    have hcl : clip_loss
        (logitsOf (@CalShift.init ι τ d P b lf lc).clip_model images toks) labels =
        Except.ok ((a1 + a2) / 2) := by
      simp only [clip_loss, hc1, hc2]
    obtain ⟨n, rfl⟩ : ∃ n, nI = n + 1 := ⟨nI - 1, by omega⟩
    obtain ⟨w, hw⟩ := tindex_ok_of_valid
      (softmax (logitsOf (@CalShift.init ι τ d P b lf lc).clip_model images toks 0))
      (labels 0) (hlab 0)
    have hfe : @compute_fisher_penalty (n + 1) (n + 1) P none
        (logitsOf (@CalShift.init ι τ d P b lf lc).clip_model images toks) labels =
        Except.error Err.noneType := by
      simp only [compute_fisher_penalty, List.finRange_succ, fisherLoop, hw]
    simp only [CalShift.forward, hpl, hcl, hfe]

/-- C4: a batch whose image count differs from its prompt count fails with a
shape error in the column-direction cross-entropy even when every label is in
range for the prompt axis. -/
theorem forward_shape_error_of_batch_mismatch {ι τ : Type} {d P nI nT : ℕ}
    (m : CalShift ι τ d P) (images : Fin nI → ι) (toks : Fin nT → τ)
    (labels : Fin nI → ℤ) (hne : nI ≠ nT)
    (hlab : ∀ i, 0 ≤ labels i ∧ labels i < (nT : ℤ)) :
    CalShift.forward m images toks labels = Except.error Err.shapeMismatch := by
  obtain ⟨a1, ha1⟩ := cross_entropy_sized_ok_of_valid
    (logitsOf m.clip_model images toks) labels hlab
  have hc1 := (cross_entropy_eq_sized (logitsOf m.clip_model images toks) labels).trans ha1
  have hc2 := cross_entropy_shape
    (fun j i => logitsOf m.clip_model images toks i j) labels hne
  have hcl : clip_loss (logitsOf m.clip_model images toks) labels =
      Except.error Err.shapeMismatch := by
    simp only [clip_loss, hc1, hc2]
  simp only [CalShift.forward, hcl]

theorem forward_shape_error_of_batch_mismatch_witness :
    CalShift.forward
        (⟨⟨fun _ _ => (0 : ℝ), fun _ _ => (0 : ℝ), 0, []⟩, 0, 0, none⟩ :
          CalShift Unit Unit 1 1)
        (fun _ : Fin 1 => ()) (fun _ : Fin 2 => ()) (fun _ => (0 : ℤ)) =
      Except.error Err.shapeMismatch :=
  forward_shape_error_of_batch_mismatch _ _ _ _ (by decide) (by decide)

/-- C5: the contrastive loss is unchanged when rows and columns of a square
logits matrix are permuted by the same permutation and the labels are
permuted correspondingly. -/
theorem clip_loss_permutation_invariant {N : ℕ} (logits : Fin N → Fin N → ℝ)
    (lab : Fin N → Fin N) (σ : Equiv.Perm (Fin N)) :
    clip_loss (fun i j => logits (σ i) (σ j))
        (fun i => ((σ.symm (lab (σ i)) : ℕ) : ℤ)) =
      clip_loss logits (fun i => ((lab i : ℕ) : ℤ)) := by
  simp only [clip_loss_intLabels]
  have hrow : ∀ i, softmax (fun j => logits (σ i) (σ j)) (σ.symm (lab (σ i))) =
      softmax (logits (σ i)) (lab (σ i)) := by
    intro i
    rw [softmax_perm (logits (σ i)) σ, Equiv.apply_symm_apply]
  have hcol : ∀ i, softmax (fun j => logits (σ j) (σ i)) (σ.symm (lab (σ i))) =
      softmax (fun j => logits j (σ i)) (lab (σ i)) := by
    intro i
    unfold softmax
    dsimp only
    rw [Equiv.sum_comp σ (fun r => Real.exp (logits r (σ i))), Equiv.apply_symm_apply]
  have e1 : (∑ i, -Real.log (softmax (fun j => logits (σ i) (σ j)) (σ.symm (lab (σ i))))) =
      ∑ i, -Real.log (softmax (logits i) (lab i)) := by
    rw [← Equiv.sum_comp σ (fun i => -Real.log (softmax (logits i) (lab i)))]
    exact Finset.sum_congr rfl (fun i _ => by rw [hrow i])
  have e2 : (∑ i, -Real.log (softmax (fun j => logits (σ j) (σ i)) (σ.symm (lab (σ i))))) =
      ∑ i, -Real.log (softmax (fun j => logits j i) (lab i)) := by
    rw [← Equiv.sum_comp σ (fun i => -Real.log (softmax (fun j => logits j i) (lab i)))]
    exact Finset.sum_congr rfl (fun i _ => by rw [hcol i])
  rw [e1, e2]

/-- C6: with a backbone whose image embedding is exactly the zero vector, the
source's unguarded L2 normalization divides by the zero norm and `forward`
still returns a report — the degenerate value (`0` in the exact-real model,
`NaN` under floats) silently reaches the logits — instead of failing
explicitly as the spec's `DegenerateNormError` policy demands. -/
theorem zero_norm_forward_returns_report :
    ∃ r : LossReport 1 1,
      CalShift.forward
          (⟨⟨fun _ _ => (0 : ℝ), fun _ _ => (1 : ℝ), 0, []⟩, 0.4, 0.4,
            some ⟨fun _ _ => 0⟩⟩ : CalShift Unit Unit 1 1)
          (fun _ => ()) (fun _ => ()) (fun _ => (((0 : Fin 1) : ℕ) : ℤ)) =
        Except.ok r ∧
      r.logits 0 0 = 0 := by
  obtain ⟨cl, fim, cmp, h⟩ := forward_ok
    (⟨fun _ _ => (0 : ℝ), fun _ _ => (1 : ℝ), 0, []⟩ : Backbone Unit Unit 1) 0.4 0.4
    (⟨fun _ _ => 0⟩ : PromptLearner 1) (fun _ : Fin 1 => ()) (fun _ : Fin 1 => ())
    (fun _ => (0 : Fin 1))
  refine ⟨_, h, ?_⟩
  show logitsOf (⟨fun _ _ => (0 : ℝ), fun _ _ => (1 : ℝ), 0, []⟩ : Backbone Unit Unit 1)
      (fun _ : Fin 1 => ()) (fun _ : Fin 1 => ()) 0 0 = 0
  simp [logitsOf, l2normalize]

/-- C7: a batch containing a label that is negative or at least the number of
text prompts makes `forward` fail in the first cross-entropy with the
invalid-label error (spec: `InvalidLabelError`) instead of returning a
silently wrong loss. -/
theorem forward_invalid_label_error {ι τ : Type} {d P nI nT : ℕ}
    (m : CalShift ι τ d P) (images : Fin nI → ι) (toks : Fin nT → τ)
    (labels : Fin nI → ℤ)
    (h : ∃ i, ¬ (0 ≤ labels i ∧ labels i < (nT : ℤ))) :
    CalShift.forward m images toks labels = Except.error Err.invalidLabel := by
  have hni : ¬ ∀ i, 0 ≤ labels i ∧ labels i < (nT : ℤ) := by
    obtain ⟨i, hi⟩ := h
    exact fun hall => hi (hall i)
  have hc1 : cross_entropy (logitsOf m.clip_model images toks) labels =
      Except.error Err.invalidLabel :=
    (cross_entropy_eq_sized (logitsOf m.clip_model images toks) labels).trans
      (cross_entropy_sized_invalid (logitsOf m.clip_model images toks) labels hni)
  have hcl : clip_loss (logitsOf m.clip_model images toks) labels =
      Except.error Err.invalidLabel := by
    simp only [clip_loss, hc1]
  simp only [CalShift.forward, hcl]

theorem forward_invalid_label_error_witness :
    CalShift.forward
        (⟨⟨fun _ _ => (0 : ℝ), fun _ _ => (0 : ℝ), 0, []⟩, 0, 0, none⟩ :
          CalShift Unit Unit 1 1)
        (fun _ : Fin 1 => ()) (fun _ : Fin 2 => ()) (fun _ => (5 : ℤ)) =
      Except.error Err.invalidLabel :=
  forward_invalid_label_error _ _ _ _ ⟨0, by decide⟩

/-- C8: after construction every backbone parameter has gradient tracking
disabled regardless of its prior flag, and constructing again on the
already-frozen backbone leaves it unchanged (freezing is idempotent). -/
theorem backbone_frozen_after_init {ι τ : Type} {d P : ℕ} (b : Backbone ι τ d)
    (lf lc lf2 lc2 : ℝ) :
    (∀ p ∈ (@CalShift.init ι τ d P b lf lc).clip_model.params,
      p.requires_grad = false) ∧
    (@CalShift.init ι τ d P (@CalShift.init ι τ d P b lf2 lc2).clip_model lf lc).clip_model =
      (@CalShift.init ι τ d P b lf lc).clip_model := by
  constructor
  · intro p hp
    simp only [CalShift.init, List.mem_map] at hp
    obtain ⟨q2, hq2, rfl⟩ := hp
    rfl
  · simp only [CalShift.init, List.map_map]
    rfl

/-- C9: when every sample's labeled class has the strictly highest softmax
probability in its row, the confidence-misalignment penalty is zero. -/
theorem cmp_zero_when_true_class_dominates {N M : ℕ} (logits : Fin N → Fin M → ℝ)
    (lab : Fin N → Fin M)
    (h : ∀ i j, j ≠ lab i → softmax (logits i) j < softmax (logits i) (lab i)) :
    compute_cmp logits (fun i => ((lab i : ℕ) : ℤ)) = Except.ok 0 := by
  rw [compute_cmp_intLabels]
  congr 1
  have hz : ∀ i : Fin N, cmpTerm (softmax (logits i)) (lab i) = 0 := by
    intro i
    have hempty : Finset.univ.filter (fun j => softmax (logits i) (lab i) < softmax (logits i) j ∧
        ((j : ℕ) : ℤ) ≠ ((lab i : ℕ) : ℤ)) = ∅ := by
      apply Finset.filter_eq_empty_iff.mpr
      intro j _
      rintro ⟨h1, h2⟩
      rcases eq_or_ne j (lab i) with he | hne
      · exact h2 (by rw [he])
      · exact absurd h1 (not_lt_of_gt (h i j hne))
    simp only [cmpTerm, hempty, Finset.sum_empty, lt_self_iff_false, if_false]
  rw [Finset.sum_congr rfl (fun i _ => hz i), Finset.sum_const, smul_zero, zero_div]

theorem cmp_zero_when_true_class_dominates_witness :
    compute_cmp (fun (_ : Fin 1) (j : Fin 2) => if j = 0 then (1 : ℝ) else 0)
        (fun _ => (((0 : Fin 2) : ℕ) : ℤ)) = Except.ok 0 :=
  cmp_zero_when_true_class_dominates
    (fun (_ : Fin 1) (j : Fin 2) => if j = 0 then (1 : ℝ) else 0) (fun _ => (0 : Fin 2))
    (by
      intro i j hj
      fin_cases j
      · exact absurd rfl hj
      · show softmax (fun j : Fin 2 => if j = 0 then (1 : ℝ) else 0) 1 <
          softmax (fun j : Fin 2 => if j = 0 then (1 : ℝ) else 0) 0
        unfold softmax
        gcongr
        simp [Real.exp_lt_exp])

/-- C10: on every batch where it is defined (a prompt learner is present, the
batch is nonempty and the labels index validly), the Fisher penalty is the
mean over the batch of the squared Euclidean norms of the per-sample
concatenated gradient vectors, and it is nonnegative. -/
theorem fisher_penalty_mean_sq_norm_nonneg {M P n : ℕ} (q : PromptLearner P)
    (logits : Fin (n + 1) → Fin M → ℝ) (lab : Fin (n + 1) → Fin M) :
    compute_fisher_penalty (some q) logits (fun i => ((lab i : ℕ) : ℤ)) =
      Except.ok ((∑ i : Fin (n + 1), ∑ p, q.grad i.val p ^ 2) / ((n + 1 : ℕ) : ℝ)) ∧
    0 ≤ (∑ i : Fin (n + 1), ∑ p, q.grad i.val p ^ 2) / ((n + 1 : ℕ) : ℝ) :=
  ⟨compute_fisher_some q logits lab, by positivity⟩
